import Mathlib

/-
Shallow embedding of piehook (src/piehook/hooks.py).

Callables are identified by natural numbers (the registry stores references,
never inspects them).  A hook invocation is recorded as a `Call` in a trace;
`run`'s observable behaviour is the info-level log count plus that trace.
Positional run arguments are modelled as `List Nat`; keyword arguments are
passed through identically and are omitted.
-/

/-- Python tuple `(priority, self._index, func)` pushed onto the per-id heap
by the decorator returned from `HookManager.add`. -/
structure HookEntry where
  priority : Int
  seq : Nat
  func : Nat
deriving DecidableEq, Repr

/-- Python tuple comparison `<` on `(priority, sequence, func)`, lexicographic.
Python would raise `TypeError` when comparing the function objects in the third
component, but that comparison is reached only when both priority and sequence
are equal, and sequence numbers assigned by `add` are unique; we compare the
callable identifiers numerically in that unreachable case. -/
def entryLt (a b : HookEntry) : Prop :=
  a.priority < b.priority ∨ (a.priority = b.priority ∧
    (a.seq < b.seq ∨ (a.seq = b.seq ∧ a.func < b.func)))

instance entryLt.instDecidable : DecidableRel entryLt := fun a b => by
  unfold entryLt; infer_instance

/-- Python `heapq._siftdown(heap, startpos, pos)`: the new item at `pos` moves
up toward the root while it is smaller than its parent; parents shift down and
the new item is written once at its final slot.  The parent index `(pos-1)/2`
strictly decreases, so the loop runs at most `pos` times; the first argument is
that iteration bound, letting the recursion be structural.  When the bound is
exhausted `pos = 0 ≤ startpos`, so the loop body would not run and the item is
written back at `pos`, exactly as the unbounded loop does. -/
def siftdownAux (newitem : HookEntry) (startpos : Nat) :
    Nat → Nat → List HookEntry → List HookEntry
  | 0, pos, heap => heap.set pos newitem
  | fuel + 1, pos, heap =>
    if startpos < pos then
      match heap[(pos - 1) / 2]? with
      | some parent =>
        if entryLt newitem parent then
          siftdownAux newitem startpos fuel ((pos - 1) / 2) (heap.set pos parent)
        else
          heap.set pos newitem
      | none => heap.set pos newitem
    else
      heap.set pos newitem

/-- Python `heapq._siftdown(heap, startpos, pos)` where `newitem = heap[pos]`. -/
def siftdown (newitem : HookEntry) (startpos pos : Nat) (heap : List HookEntry) :
    List HookEntry :=
  siftdownAux newitem startpos pos pos heap

/-- Python `heapq.heappush(heap, item)`: `heap.append(item)` followed by
`_siftdown(heap, 0, len(heap)-1)`. -/
def heappush (heap : List HookEntry) (item : HookEntry) : List HookEntry :=
  siftdown item 0 (heap ++ [item]).length.pred (heap ++ [item])

/-- Negation of the tuple order: `descRel a b` holds when `a` need not come
after `b` in the reverse-sorted output, i.e. `¬ a < b`. -/
def descRel (a b : HookEntry) : Prop := ¬ entryLt a b

instance descRel.instDecidable : DecidableRel descRel := fun a b => by
  unfold descRel; infer_instance

instance descRel.instIsTotal : IsTotal HookEntry descRel := by
  constructor
  intro a b
  unfold descRel entryLt
  omega

instance descRel.instIsTrans : IsTrans HookEntry descRel := by
  constructor
  intro a b c
  unfold descRel entryLt
  omega

/-- Python `sorted(entries, reverse=True)` on `(priority, sequence, func)`
tuples.  The relation `descRel` is total, transitive and antisymmetric up to
full equality of the tuples, so the sorted result is unique: any sorting
algorithm (in particular Python's stable timsort) produces this list. -/
def pySortedDesc (l : List HookEntry) : List HookEntry :=
  l.insertionSort descRel

/-- One recorded hook invocation: which callable ran, with which positional
arguments, and whether it ran on the async path. -/
structure Call where
  func : Nat
  args : List Nat
  is_async : Bool
deriving DecidableEq, Repr

/-- Observable outcome of `HookManager.run`: the count logged at info level
(`"Running {n} hooks for {id}"`) and the ordered invocation trace. -/
structure RunResult where
  logCount : Nat
  calls : List Call
deriving DecidableEq, Repr

/-- State of `HookManager`: the set of already-imported module names, the two
`defaultdict(list)` heaps (modelled as total functions defaulting to `[]`),
and the shared `_index` counter.  The logger configuration carries no state
the claims depend on and is omitted. -/
structure HookManager where
  imported_hooks : List String
  hooks : String → List HookEntry
  async_hooks : String → List HookEntry
  index : Nat

/-- Python `HookManager()`: empty registries, counter at zero. -/
def HookManager.init : HookManager :=
  { imported_hooks := []
    hooks := fun _ => []
    async_hooks := fun _ => []
    index := 0 }

/-- Body of the decorator returned by `HookManager.add(id, priority, is_async)`,
applied to callable `func`: heap-push `(priority, self._index, func)` into the
collection chosen by `is_async`, increment `self._index`, and return `func`.
The result pairs the new state with the decorator's return value. -/
def HookManager.addApply (m : HookManager) (id : String) (priority : Int)
    (is_async : Bool) (func : Nat) : HookManager × Nat :=
  if is_async then
    ({ m with
        async_hooks := fun i =>
          if i = id then heappush (m.async_hooks id) ⟨priority, m.index, func⟩
          else m.async_hooks i
        index := m.index + 1 }, func)
  else
    ({ m with
        hooks := fun i =>
          if i = id then heappush (m.hooks id) ⟨priority, m.index, func⟩
          else m.hooks i
        index := m.index + 1 }, func)

/-- Registration ignoring the decorator's return value. -/
def HookManager.addHook (m : HookManager) (id : String) (priority : Int)
    (is_async : Bool) (func : Nat) : HookManager :=
  (m.addApply id priority is_async func).1

/-- Python `HookManager.run(id, *args)`:
`funcs = [f for _, _, f in sorted(self._hooks[id], reverse=True)]`, same for
the async heap; log `len(funcs) + len(async_funcs)` at info level; call every
synchronous hook in order with the given arguments; then hand the async hooks
to `asyncio.run(self._run_async_hooks(...))`, recorded here in their launch
order. -/
def HookManager.run (m : HookManager) (id : String) (args : List Nat) :
    RunResult :=
  { logCount :=
      ((pySortedDesc (m.hooks id)).map HookEntry.func).length +
        ((pySortedDesc (m.async_hooks id)).map HookEntry.func).length
    calls :=
      ((pySortedDesc (m.hooks id)).map HookEntry.func).map
          (fun f => { func := f, args := args, is_async := false }) ++
        ((pySortedDesc (m.async_hooks id)).map HookEntry.func).map
          (fun f => { func := f, args := args, is_async := true }) }

/-- Python `HookManager.remove(id, func)`: rebuild both collections for `id`,
keeping exactly the entries whose third component differs from `func`. -/
def HookManager.remove (m : HookManager) (id : String) (func : Nat) :
    HookManager :=
  { m with
    hooks := fun i =>
      if i = id then (m.hooks id).filter (fun h => h.func != func)
      else m.hooks i
    async_hooks := fun i =>
      if i = id then (m.async_hooks id).filter (fun h => h.func != func)
      else m.async_hooks i }

/-- Effect of `importlib.import_module` on one module: the ordered `add` calls
`(id, priority, is_async, func)` its top-level code performs, or a
raised import error. -/
inductive ImportResult where
  | ok : List (String × Int × Bool × Nat) → ImportResult
  | err : String → ImportResult
deriving DecidableEq, Repr

/-- Replay the `hooks.add(...)` calls a freshly imported module performs. -/
def applyRegs (m : HookManager) (regs : List (String × Int × Bool × Nat)) :
    HookManager :=
  regs.foldl (fun acc r => acc.addHook r.1 r.2.1 r.2.2.1 r.2.2.2) m

/-- Python `str.endswith`, which compares code points; `String.data` is the
code-point list. -/
def pyEndsWith (s suffix : String) : Bool :=
  List.isSuffixOf suffix.data s.data

/-- Module-name derivation in `import_hooks`:
`os.path.relpath(os.path.join(root, file), root_path).replace(os.sep, '.')[:-3]`.
A file is identified by its relative directory components plus its name; path
components never contain the separator, so replacing the separator by `'.'` in
the joined relative path equals interleaving the components with `'.'`, and
`[:-3]` drops the trailing `".py"` (three code points). -/
def modName (dirs : List String) (file : String) : String :=
  ⟨(String.intercalate "." (dirs ++ [file])).data.dropLast.dropLast.dropLast⟩

/-- State threaded through one `import_hooks` scan: the manager, the module
names newly imported during this scan (each producing the info-level
`"Imported 1 hook(s) from {mod_name}"` message, the 1 being the before/after
set-size delta), and the pending raised import error, if any. -/
structure ScanResult where
  manager : HookManager
  loaded : List String
  error : Option String

/-- Processing of a single file yielded by the `os.walk` loops.  A raised
error short-circuits everything after it (the exception propagates out of
`import_hooks`).  Otherwise: skip files not ending in `f'{file_suffix}.py'`;
derive the module name; skip it when already in `imported_hooks`; otherwise
load the module (running its registrations), then add the name to
`imported_hooks` — in the source, `importlib.import_module` runs before
`self.imported_hooks.add`, so a failing module is not marked imported. -/
def processFile (env : String → ImportResult) (file_suffix : String)
    (st : ScanResult) (df : List String × String) : ScanResult :=
  if st.error.isSome then st
  else if pyEndsWith df.2 (file_suffix ++ ".py") then
    if modName df.1 df.2 ∈ st.manager.imported_hooks then st
    else
      match env (modName df.1 df.2) with
      | ImportResult.err e => { st with error := some e }
      | ImportResult.ok regs =>
        { manager :=
            { applyRegs st.manager regs with
                imported_hooks :=
                  (applyRegs st.manager regs).imported_hooks ++ [modName df.1 df.2] }
          loaded := st.loaded ++ [modName df.1 df.2]
          error := none }
  else st

/-- Python `HookManager.import_hooks(root_path, file_suffix)`.  The directory
tree is supplied as the ordered list of (relative directory components,
filename) pairs that the nested `os.walk` loops yield; `env` is the host
module loader (`importlib.import_module`).  The default-`root_path`
resolution via `sys.modules['__main__']` only picks the tree and is outside
the model. -/
def HookManager.import_hooks (m : HookManager) (env : String → ImportResult)
    (walk : List (List String × String)) (file_suffix : String) : ScanResult :=
  walk.foldl (processFile env file_suffix)
    { manager := m, loaded := [], error := none }

/-- Manager state of claim C1's scenario: callables A = 0, B = 1, C = 2
registered under `"x"` at priorities 0, 5, 0 in that order. -/
def mgrC1 : HookManager :=
  ((HookManager.init.addHook "x" 0 false 0).addHook "x" 5 false 1).addHook
    "x" 0 false 2

/-- Concrete state with one sync hook (callable 7) and one async hook
(callable 8) under `"x"`. -/
def mgrMixed : HookManager :=
  (HookManager.init.addHook "x" 0 false 7).addHook "x" 0 true 8

/-- Concrete state with a single sync hook (callable 3) under `"y"`. -/
def mgrY : HookManager :=
  HookManager.init.addHook "y" 0 false 3

/-- Module loader used in concrete discovery scenarios: `"bad_hooks"` raises,
every other module registers callable 1 under `"x"`. -/
def envC9 : String → ImportResult := fun n =>
  if n = "bad_hooks" then ImportResult.err "boom"
  else ImportResult.ok [("x", 0, false, 1)]

/-- Walk with one matching file at the root. -/
def walkOne : List (List String × String) := [([], "a_hooks.py")]

/-- Walk whose second matching file fails to import under `envC9`. -/
def walkBad : List (List String × String) :=
  [([], "a_hooks.py"), ([], "bad_hooks.py"), ([], "c_hooks.py")]

/-- Swapping the head with the value written at position `k` of the tail is a
permutation. -/
theorem cons_set_swap {α : Type _} (y z : α) :
    ∀ (t : List α) (k : Nat), k < t.length →
      List.Perm (y :: t.set k z) (z :: t.set k y) := by
  intro t
  induction t with
  | nil => intro k hk; simp at hk
  | cons a t ih =>
    intro k hk
    cases k with
    | zero =>
      simp only [List.set_cons_zero]
      exact List.Perm.swap z y t
    | succ k =>
      simp only [List.set_cons_succ]
      have h1 : List.Perm (y :: a :: t.set k z) (a :: y :: t.set k z) :=
        List.Perm.swap a y _
      have h2 := (ih k (by simpa using hk)).cons a
      have h3 : List.Perm (a :: z :: t.set k y) (z :: a :: t.set k y) :=
        List.Perm.swap z a _
      exact h1.trans (h2.trans h3)

/-- Writing the value found at `j` into slot `i` and then `x` into slot `j`
permutes the list obtained by writing `x` into slot `i` directly. -/
theorem set_set_swap_perm {α : Type _} :
    ∀ (l : List α) (i j : Nat) (x pj : α), j < i → i < l.length →
      l[j]? = some pj → List.Perm ((l.set i pj).set j x) (l.set i x) := by
  intro l
  induction l with
  | nil => intro i j x pj hji hi hj; simp at hi
  | cons h t ih =>
    intro i j x pj hji hi hj
    cases j with
    | zero =>
      simp only [List.getElem?_cons_zero, Option.some.injEq] at hj
      subst hj
      cases i with
      | zero => omega
      | succ i =>
        simp only [List.set_cons_succ, List.set_cons_zero]
        exact cons_set_swap x h t i (by simpa using hi)
    | succ j =>
      cases i with
      | zero => omega
      | succ i =>
        simp only [List.set_cons_succ, List.getElem?_cons_succ] at hj ⊢
        exact (ih i j x pj (by omega) (by simpa using hi) hj).cons h

/-- The sift-up loop only shifts values around and finally writes the new item
at its resting slot: the outcome is a permutation of writing the new item at
the starting slot directly. -/
theorem siftdownAux_perm (newitem : HookEntry) (startpos : Nat) :
    ∀ (fuel pos : Nat) (heap : List HookEntry), pos < heap.length →
      List.Perm (siftdownAux newitem startpos fuel pos heap)
        (heap.set pos newitem) := by
  intro fuel
  induction fuel with
  | zero => intro pos heap _; exact List.Perm.refl _
  | succ fuel ih =>
    intro pos heap hlen
    simp only [siftdownAux]
    by_cases hsp : startpos < pos
    · rw [if_pos hsp]
      split
      next parent hp =>
        by_cases hlt : entryLt newitem parent
        · rw [if_pos hlt]
          have h1 := ih ((pos - 1) / 2) (heap.set pos parent)
            (by rw [List.length_set]; omega)
          refine h1.trans ?_
          exact set_set_swap_perm heap pos ((pos - 1) / 2) newitem parent
            (by omega) hlen hp
        · rw [if_neg hlt]
      next hp => exact List.Perm.refl _
    · rw [if_neg hsp]

/-- Overwriting the appended last element leaves an append. -/
theorem set_append_last {α : Type _} :
    ∀ (l : List α) (x y : α), (l ++ [x]).set l.length y = l ++ [y] := by
  intro l x y
  induction l with
  | nil => rfl
  | cons a t ih => simp only [List.cons_append, List.length_cons,
      List.set_cons_succ, ih]

/-- Pushing onto a heap is, up to permutation, consing the item. -/
theorem heappush_perm (heap : List HookEntry) (item : HookEntry) :
    List.Perm (heappush heap item) (item :: heap) := by
  unfold heappush siftdown
  have hp : (heap ++ [item]).length.pred = heap.length := by simp
  rw [hp]
  have h1 := siftdownAux_perm item 0 heap.length heap.length (heap ++ [item])
    (by simp)
  rw [set_append_last] at h1
  exact h1.trans (List.perm_append_singleton item heap)

/-- The reverse-sorted view is a permutation of the heap contents. -/
theorem pySortedDesc_perm (l : List HookEntry) :
    List.Perm (pySortedDesc l) l :=
  List.perm_insertionSort descRel l

/-- The reverse-sorted view is pairwise non-increasing in the tuple order. -/
theorem pySortedDesc_sorted (l : List HookEntry) :
    (pySortedDesc l).Pairwise descRel :=
  List.sorted_insertionSort descRel l

/-- The decorator returns its argument. -/
theorem HookManager.addApply_snd (m : HookManager) (id : String) (p : Int)
    (a : Bool) (f : Nat) : (m.addApply id p a f).2 = f := by
  unfold HookManager.addApply; split <;> rfl

/-- Registration does not touch the imported-modules set. -/
theorem HookManager.addHook_imported (m : HookManager) (id : String) (p : Int)
    (a : Bool) (f : Nat) :
    (m.addHook id p a f).imported_hooks = m.imported_hooks := by
  unfold HookManager.addHook HookManager.addApply; split <;> rfl

/-- Registration bumps the shared sequence counter by one. -/
theorem HookManager.addHook_index (m : HookManager) (id : String) (p : Int)
    (a : Bool) (f : Nat) : (m.addHook id p a f).index = m.index + 1 := by
  unfold HookManager.addHook HookManager.addApply; split <;> rfl

/-- Replaying a module's registrations does not touch the imported set. -/
theorem applyRegs_imported :
    ∀ (regs : List (String × Int × Bool × Nat)) (m : HookManager),
      (applyRegs m regs).imported_hooks = m.imported_hooks := by
  intro regs
  induction regs with
  | nil => intro m; rfl
  | cons r rest ih =>
    intro m
    show (applyRegs (m.addHook r.1 r.2.1 r.2.2.1 r.2.2.2) rest).imported_hooks
        = m.imported_hooks
    rw [ih, HookManager.addHook_imported]

/-- Case analysis of one step of the discovery loop, with the branch
conditions recorded. -/
theorem processFile_cases (env : String → ImportResult) (sfx : String)
    (st : ScanResult) (df : List String × String) :
    (st.error.isSome = true ∧ processFile env sfx st df = st)
    ∨ (st.error = none ∧ pyEndsWith df.2 (sfx ++ ".py") = false
        ∧ processFile env sfx st df = st)
    ∨ (st.error = none ∧ pyEndsWith df.2 (sfx ++ ".py") = true
        ∧ modName df.1 df.2 ∈ st.manager.imported_hooks
        ∧ processFile env sfx st df = st)
    ∨ (∃ e, st.error = none ∧ pyEndsWith df.2 (sfx ++ ".py") = true
        ∧ modName df.1 df.2 ∉ st.manager.imported_hooks
        ∧ env (modName df.1 df.2) = ImportResult.err e
        ∧ processFile env sfx st df = { st with error := some e })
    ∨ (∃ regs, st.error = none ∧ pyEndsWith df.2 (sfx ++ ".py") = true
        ∧ modName df.1 df.2 ∉ st.manager.imported_hooks
        ∧ env (modName df.1 df.2) = ImportResult.ok regs
        ∧ processFile env sfx st df =
            { manager := { applyRegs st.manager regs with
                  imported_hooks :=
                    st.manager.imported_hooks ++ [modName df.1 df.2] }
              loaded := st.loaded ++ [modName df.1 df.2]
              error := none }) := by
  by_cases h1 : st.error.isSome = true
  · exact Or.inl ⟨h1, by unfold processFile; rw [if_pos h1]⟩
  · have h1n : st.error = none := by
      cases he : st.error
      · rfl
      · rw [he] at h1; simp at h1
    by_cases h2 : pyEndsWith df.2 (sfx ++ ".py") = true
    · by_cases h3 : modName df.1 df.2 ∈ st.manager.imported_hooks
      · refine Or.inr (Or.inr (Or.inl ⟨h1n, h2, h3, ?_⟩))
        unfold processFile
        rw [if_neg h1, if_pos h2, if_pos h3]
      · cases henv : env (modName df.1 df.2) with
        | ok regs =>
          refine Or.inr (Or.inr (Or.inr (Or.inr ⟨regs, h1n, h2, h3, rfl, ?_⟩)))
          unfold processFile
          rw [if_neg h1, if_pos h2, if_neg h3, henv]
          show ({ manager := { applyRegs st.manager regs with
                    imported_hooks :=
                      (applyRegs st.manager regs).imported_hooks
                        ++ [modName df.1 df.2] }
                  loaded := st.loaded ++ [modName df.1 df.2]
                  error := none } : ScanResult) = _
          rw [applyRegs_imported]
        | err e =>
          refine Or.inr (Or.inr (Or.inr (Or.inl ⟨e, h1n, h2, h3, rfl, ?_⟩)))
          unfold processFile
          rw [if_neg h1, if_pos h2, if_neg h3, henv]
    · have h2f : pyEndsWith df.2 (sfx ++ ".py") = false := by
        cases hb : pyEndsWith df.2 (sfx ++ ".py")
        · rfl
        · exact absurd hb h2
      refine Or.inr (Or.inl ⟨h1n, h2f, ?_⟩)
      unfold processFile
      rw [if_neg h1, if_neg h2]

/-- Once an import error is pending, the rest of the walk is skipped: the
exception propagates out of `import_hooks`. -/
theorem scan_err_frozen (env : String → ImportResult) (sfx : String) :
    ∀ (walk : List (List String × String)) (st : ScanResult),
      st.error.isSome = true → walk.foldl (processFile env sfx) st = st := by
  intro walk
  induction walk with
  | nil => intro st _; rfl
  | cons df rest ih =>
    intro st h
    rw [List.foldl_cons]
    have hstep : processFile env sfx st df = st := by
      unfold processFile; rw [if_pos h]
    rw [hstep]
    exact ih st h

/-- The imported-modules set only grows during a scan. -/
theorem scan_imported_mono (env : String → ImportResult) (sfx : String) :
    ∀ (walk : List (List String × String)) (st : ScanResult) (n : String),
      n ∈ st.manager.imported_hooks →
      n ∈ (walk.foldl (processFile env sfx) st).manager.imported_hooks := by
  intro walk
  induction walk with
  | nil => intro st n hn; exact hn
  | cons df rest ih =>
    intro st n hn
    rw [List.foldl_cons]
    apply ih
    rcases processFile_cases env sfx st df with ⟨_, heq⟩ | ⟨_, _, heq⟩ |
      ⟨_, _, _, heq⟩ | ⟨e, _, _, _, _, heq⟩ | ⟨regs, _, _, _, _, heq⟩
    · rw [heq]; exact hn
    · rw [heq]; exact hn
    · rw [heq]; exact hn
    · rw [heq]; exact hn
    · rw [heq]; exact List.mem_append_left _ hn

/-- During a scan, the imported set stays equal to its pre-scan value extended
by the modules newly loaded so far, in order. -/
theorem scan_loaded_inv (env : String → ImportResult) (sfx : String)
    (base : List String) :
    ∀ (walk : List (List String × String)) (st : ScanResult),
      st.manager.imported_hooks = base ++ st.loaded →
      (walk.foldl (processFile env sfx) st).manager.imported_hooks
        = base ++ (walk.foldl (processFile env sfx) st).loaded := by
  intro walk
  induction walk with
  | nil => intro st h; exact h
  | cons df rest ih =>
    intro st h
    rw [List.foldl_cons]
    apply ih
    rcases processFile_cases env sfx st df with ⟨_, heq⟩ | ⟨_, _, heq⟩ |
      ⟨_, _, _, heq⟩ | ⟨e, _, _, _, _, heq⟩ | ⟨regs, _, _, _, _, heq⟩
    · rw [heq]; exact h
    · rw [heq]; exact h
    · rw [heq]; exact h
    · rw [heq]; exact h
    · rw [heq]
      show st.manager.imported_hooks ++ [modName df.1 df.2]
          = base ++ (st.loaded ++ [modName df.1 df.2])
      rw [h, List.append_assoc]

/-- Every module recorded as loaded during a scan had a successful import. -/
theorem scan_loaded_ok (env : String → ImportResult) (sfx : String) :
    ∀ (walk : List (List String × String)) (st : ScanResult),
      (∀ n ∈ st.loaded, ∃ regs, env n = ImportResult.ok regs) →
      ∀ n ∈ (walk.foldl (processFile env sfx) st).loaded,
        ∃ regs, env n = ImportResult.ok regs := by
  intro walk
  induction walk with
  | nil => intro st h; exact h
  | cons df rest ih =>
    intro st h
    rw [List.foldl_cons]
    apply ih
    rcases processFile_cases env sfx st df with ⟨_, heq⟩ | ⟨_, _, heq⟩ |
      ⟨_, _, _, heq⟩ | ⟨e, _, _, _, _, heq⟩ | ⟨regs, _, _, _, henv, heq⟩
    · rw [heq]; exact h
    · rw [heq]; exact h
    · rw [heq]; exact h
    · rw [heq]; exact h
    · rw [heq]
      intro n hn
      rcases List.mem_append.mp hn with hl | hr
      · exact h n hl
      · rw [List.mem_singleton.mp hr]
        exact ⟨regs, henv⟩

/-- Every module recorded as loaded during a scan stems from a walked file
whose name ends in the suffix followed by `".py"`, via the module-name
derivation. -/
theorem scan_loaded_src (env : String → ImportResult) (sfx : String) :
    ∀ (walk : List (List String × String)) (st : ScanResult) (n : String),
      n ∈ (walk.foldl (processFile env sfx) st).loaded →
      n ∈ st.loaded ∨ ∃ df, df ∈ walk ∧ pyEndsWith df.2 (sfx ++ ".py") = true
        ∧ n = modName df.1 df.2 := by
  intro walk
  induction walk with
  | nil => intro st n hn; exact Or.inl hn
  | cons df0 rest ih =>
    intro st n hn
    rw [List.foldl_cons] at hn
    rcases ih (processFile env sfx st df0) n hn with hl | ⟨df, hdf, hm, hname⟩
    · rcases processFile_cases env sfx st df0 with ⟨_, heq⟩ | ⟨_, _, heq⟩ |
        ⟨_, _, _, heq⟩ | ⟨e, _, _, _, _, heq⟩ | ⟨regs, _, h2, _, _, heq⟩
      · rw [heq] at hl; exact Or.inl hl
      · rw [heq] at hl; exact Or.inl hl
      · rw [heq] at hl; exact Or.inl hl
      · rw [heq] at hl; exact Or.inl hl
      · rw [heq] at hl
        rcases List.mem_append.mp hl with hll | hlr
        · exact Or.inl hll
        · exact Or.inr ⟨df0, List.mem_cons_self df0 rest, h2,
            List.mem_singleton.mp hlr⟩
    · exact Or.inr ⟨df, List.mem_cons_of_mem df0 hdf, hm, hname⟩

/-- When a scan finishes without an import error, the derived name of every
matching walked file is in the final imported set. -/
theorem scan_matching_imported (env : String → ImportResult) (sfx : String) :
    ∀ (walk : List (List String × String)) (st : ScanResult),
      (walk.foldl (processFile env sfx) st).error = none →
      ∀ df ∈ walk, pyEndsWith df.2 (sfx ++ ".py") = true →
        modName df.1 df.2
          ∈ (walk.foldl (processFile env sfx) st).manager.imported_hooks := by
  intro walk
  induction walk with
  | nil => intro st _ df hdf; simp at hdf
  | cons df0 rest ih =>
    intro st herr df hdf hmatch
    rw [List.foldl_cons] at herr ⊢
    rcases List.mem_cons.mp hdf with rfl | hdf'
    · cases hc : (processFile env sfx st df).error with
      | some e =>
        exfalso
        rw [scan_err_frozen env sfx rest _ (by rw [hc]; rfl)] at herr
        rw [hc] at herr
        exact Option.noConfusion herr
      | none =>
        rcases processFile_cases env sfx st df with ⟨h1, heq⟩ | ⟨h1, h2, heq⟩ |
          ⟨h1, h2, h3, heq⟩ | ⟨e, h1, h2, h3, henv, heq⟩ |
          ⟨regs, h1, h2, h3, henv, heq⟩
        · rw [heq] at hc; rw [hc] at h1; simp at h1
        · rw [hmatch] at h2; simp at h2
        · apply scan_imported_mono
          rw [heq]; exact h3
        · rw [heq] at hc; simp at hc
        · apply scan_imported_mono
          rw [heq]
          exact List.mem_append_right _ (List.mem_singleton.mpr rfl)
    · exact ih (processFile env sfx st df0) herr df hdf' hmatch

/-- A scan over a tree whose matching module names are all already imported
does nothing. -/
theorem scan_noop (env : String → ImportResult) (sfx : String) :
    ∀ (walk : List (List String × String)) (st : ScanResult),
      st.error = none →
      (∀ df ∈ walk, pyEndsWith df.2 (sfx ++ ".py") = true →
        modName df.1 df.2 ∈ st.manager.imported_hooks) →
      walk.foldl (processFile env sfx) st = st := by
  intro walk
  induction walk with
  | nil => intro st _ _; rfl
  | cons df0 rest ih =>
    intro st herr hall
    rw [List.foldl_cons]
    have hstep : processFile env sfx st df0 = st := by
      unfold processFile
      rw [if_neg (by rw [herr]; simp)]
      by_cases h2 : pyEndsWith df0.2 (sfx ++ ".py") = true
      · rw [if_pos h2, if_pos (hall df0 (List.mem_cons_self df0 rest) h2)]
      · rw [if_neg h2]
    rw [hstep]
    exact ih st herr (fun df hdf => hall df (List.mem_cons_of_mem df0 hdf))

/-- Claim C1, counterexample: registering callables A = 0 at priority 0,
B = 1 at priority 5, C = 2 at priority 0 (in that order) under id `"x"` and
then calling `run("x")` does not execute them in the claimed order B, A, C:
`sorted(..., reverse=True)` orders equal priorities by descending sequence
number, so the trace is B, C, A. -/
theorem c1_fifo_tie_break_counterexample :
    ¬ ((mgrC1.run "x" []).calls.map Call.func = [1, 0, 2]) := by decide

/-- Claim C1 (amended): for every identifier, `run` executes the synchronous
hooks stored under that identifier in descending order of priority, and among
entries with equal priority, in descending order of registration sequence
(LIFO).  In particular, registering A at priority 0, B at priority 5, C at
priority 0, in that order, under id `"x"` and then calling `run("x")`
executes them in the order B, C, A. -/
theorem c1_run_sync_order_amended :
    (∀ (m : HookManager) (id : String) (args : List Nat),
      ((m.run id args).calls.filter (fun c => !c.is_async)).map Call.func
          = (pySortedDesc (m.hooks id)).map HookEntry.func
        ∧ List.Perm (pySortedDesc (m.hooks id)) (m.hooks id)
        ∧ (pySortedDesc (m.hooks id)).Pairwise (fun a b =>
            b.priority < a.priority ∨ (a.priority = b.priority ∧ b.seq ≤ a.seq)))
    ∧ (mgrC1.run "x" []).calls.map Call.func = [1, 2, 0] := by
  constructor
  · intro m id args
    refine ⟨?_, pySortedDesc_perm _, ?_⟩
    · simp [HookManager.run, List.filter_append, List.filter_map,
        Function.comp_def, List.map_map]
    · refine (pySortedDesc_sorted (m.hooks id)).imp ?_
      intro a b hab
      unfold descRel entryLt at hab
      omega
  · decide

/-- Claim C2: in every invocation of `run(id, args)`, every synchronous hook
registered under `id` appears in the trace before any asynchronous hook
registered under `id`, every registered hook of either kind is invoked, and
each invocation receives the call's arguments unchanged. -/
theorem c2_sync_before_async (m : HookManager) (id : String) (args : List Nat) :
    ((m.run id args).calls.Pairwise
        (fun c d => d.is_async = false → c.is_async = false))
    ∧ (∀ e ∈ m.hooks id,
        ({ func := e.func, args := args, is_async := false } : Call)
          ∈ (m.run id args).calls)
    ∧ (∀ e ∈ m.async_hooks id,
        ({ func := e.func, args := args, is_async := true } : Call)
          ∈ (m.run id args).calls)
    ∧ (∀ c ∈ (m.run id args).calls, c.args = args) := by
  refine ⟨?_, ?_, ?_, ?_⟩
  · simp [HookManager.run, List.pairwise_append, List.pairwise_map]
    exact ⟨List.pairwise_of_forall (fun _ _ => trivial),
      List.pairwise_of_forall (fun _ _ => trivial)⟩
  · intro e he
    exact List.mem_append_left _
      (List.mem_map_of_mem _ (List.mem_map_of_mem _
        ((pySortedDesc_perm (m.hooks id)).mem_iff.mpr he)))
  · intro e he
    exact List.mem_append_right _
      (List.mem_map_of_mem _ (List.mem_map_of_mem _
        ((pySortedDesc_perm (m.async_hooks id)).mem_iff.mpr he)))
  · intro c hc
    rcases List.mem_append.mp hc with h | h <;>
      (obtain ⟨g, _, rfl⟩ := List.mem_map.mp h; rfl)

/-- Claim C2, witness: in the mixed state, the synchronous callable 7 is
invoked with the arguments of the run call. -/
theorem c2_sync_before_async_witness :
    ({ func := 7, args := [3], is_async := false } : Call)
      ∈ (mgrMixed.run "x" [3]).calls :=
  (c2_sync_before_async mgrMixed "x" [3]).2.1 ⟨0, 0, 7⟩ (by decide)

/-- Claim C4: for every identifier with no registered hooks of either kind,
`run` completes, executes zero hooks, and logs a hook count of 0 at info
level. -/
theorem c4_run_unknown_id (m : HookManager) (id : String) (args : List Nat)
    (h1 : m.hooks id = []) (h2 : m.async_hooks id = []) :
    (m.run id args).logCount = 0 ∧ (m.run id args).calls = [] := by
  simp [HookManager.run, pySortedDesc, h1, h2]

/-- Claim C4, witness: the fresh manager runs an unknown id without hooks. -/
theorem c4_run_unknown_id_witness :
    (HookManager.init.run "nope" []).logCount = 0
      ∧ (HookManager.init.run "nope" []).calls = [] :=
  c4_run_unknown_id HookManager.init "nope" [] rfl rfl

/-- Claim C5: `remove(id, f)` deletes exactly the entries whose stored
callable is `f` from both the synchronous and the asynchronous collection for
`id` (leaving every other identifier untouched), is a no-op when `f` is not
registered under `id`, and afterwards `f` is not invoked by a subsequent
`run(id)`. -/
theorem c5_remove_purges (m : HookManager) (id : String) (f : Nat) :
    (∀ (i : String) (e : HookEntry),
        e ∈ (m.remove id f).hooks i ↔ e ∈ m.hooks i ∧ (i = id → e.func ≠ f))
    ∧ (∀ (i : String) (e : HookEntry),
        e ∈ (m.remove id f).async_hooks i
          ↔ e ∈ m.async_hooks i ∧ (i = id → e.func ≠ f))
    ∧ ((∀ e ∈ m.hooks id, e.func ≠ f) → (∀ e ∈ m.async_hooks id, e.func ≠ f) →
        m.remove id f = m)
    ∧ (∀ (args : List Nat) (c : Call),
        c ∈ ((m.remove id f).run id args).calls → c.func ≠ f) := by
  refine ⟨?_, ?_, ?_, ?_⟩
  · intro i e
    by_cases hi : i = id
    · subst hi
      simp [HookManager.remove, List.mem_filter, bne_iff_ne]
    · simp [HookManager.remove, hi]
  · intro i e
    by_cases hi : i = id
    · subst hi
      simp [HookManager.remove, List.mem_filter, bne_iff_ne]
    · simp [HookManager.remove, hi]
  · intro ha hb
    have hfa : (m.hooks id).filter (fun h => h.func != f) = m.hooks id :=
      List.filter_eq_self.mpr (fun e he => by simpa [bne_iff_ne] using ha e he)
    have hfb : (m.async_hooks id).filter (fun h => h.func != f)
        = m.async_hooks id :=
      List.filter_eq_self.mpr (fun e he => by simpa [bne_iff_ne] using hb e he)
    have hh : (fun i => if i = id
          then (m.hooks id).filter (fun h => h.func != f) else m.hooks i)
        = m.hooks := by
      funext i
      by_cases hi : i = id
      · subst hi; simp [hfa]
      · simp [hi]
    have hha : (fun i => if i = id
          then (m.async_hooks id).filter (fun h => h.func != f)
          else m.async_hooks i)
        = m.async_hooks := by
      funext i
      by_cases hi : i = id
      · subst hi; simp [hfb]
      · simp [hi]
    show ({ m with
        hooks := fun i => if i = id
          then (m.hooks id).filter (fun h => h.func != f) else m.hooks i
        async_hooks := fun i => if i = id
          then (m.async_hooks id).filter (fun h => h.func != f)
          else m.async_hooks i } : HookManager) = m
    rw [hh, hha]
  · intro args c hc
    have hrm : (m.remove id f).hooks id
        = (m.hooks id).filter (fun h => h.func != f) := by
      simp [HookManager.remove]
    have hrma : (m.remove id f).async_hooks id
        = (m.async_hooks id).filter (fun h => h.func != f) := by
      simp [HookManager.remove]
    rcases List.mem_append.mp hc with h | h
    · obtain ⟨g, hg, rfl⟩ := List.mem_map.mp h
      obtain ⟨e, he, rfl⟩ := List.mem_map.mp hg
      have he' := (pySortedDesc_perm _).subset he
      rw [hrm] at he'
      have := (List.mem_filter.mp he').2
      simpa [bne_iff_ne] using this
    · obtain ⟨g, hg, rfl⟩ := List.mem_map.mp h
      obtain ⟨e, he, rfl⟩ := List.mem_map.mp hg
      have he' := (pySortedDesc_perm _).subset he
      rw [hrma] at he'
      have := (List.mem_filter.mp he').2
      simpa [bne_iff_ne] using this

/-- Claim C5, witness: removing a callable never registered under `"x"` is a
no-op on the concrete one-hook state. -/
theorem c5_remove_purges_witness : mgrY.remove "x" 9 = mgrY :=
  (c5_remove_purges mgrY "x" 9).2.2.1 (by decide) (by decide)

/-- Occurrences of callable `f` on the synchronous side of a run trace equal
its occurrences in the synchronous heap for the identifier. -/
theorem run_countP_sync (m : HookManager) (id : String) (args : List Nat)
    (f : Nat) :
    (m.run id args).calls.countP (fun c => c.func == f && !c.is_async)
      = (m.hooks id).countP (fun e => e.func == f) := by
  show List.countP _
      (((pySortedDesc (m.hooks id)).map HookEntry.func).map
          (fun g => ({ func := g, args := args, is_async := false } : Call)) ++
        ((pySortedDesc (m.async_hooks id)).map HookEntry.func).map
          (fun g => ({ func := g, args := args, is_async := true } : Call)))
      = _
  rw [List.countP_append, List.countP_map, List.countP_map, List.countP_map,
    List.countP_map]
  simp only [Function.comp_def, Bool.not_false, Bool.not_true, Bool.and_true,
    Bool.and_false]
  rw [(pySortedDesc_perm (m.hooks id)).countP_eq]
  simp

/-- Occurrences of callable `f` on the asynchronous side of a run trace equal
its occurrences in the asynchronous heap for the identifier. -/
theorem run_countP_async (m : HookManager) (id : String) (args : List Nat)
    (f : Nat) :
    (m.run id args).calls.countP (fun c => c.func == f && c.is_async)
      = (m.async_hooks id).countP (fun e => e.func == f) := by
  show List.countP _
      (((pySortedDesc (m.hooks id)).map HookEntry.func).map
          (fun g => ({ func := g, args := args, is_async := false } : Call)) ++
        ((pySortedDesc (m.async_hooks id)).map HookEntry.func).map
          (fun g => ({ func := g, args := args, is_async := true } : Call)))
      = _
  rw [List.countP_append, List.countP_map, List.countP_map, List.countP_map,
    List.countP_map]
  simp only [Function.comp_def, Bool.and_true, Bool.and_false]
  rw [(pySortedDesc_perm (m.async_hooks id)).countP_eq]
  simp

/-- Claim C7: the registrar returned by `add(id, priority, isAsync)`, applied
to a callable, returns the callable unchanged, increments the shared sequence
counter, inserts exactly the entry `(priority, old index, callable)` into the
collection selected by `isAsync` (leaving the other collection untouched),
and applying it twice to the same callable under the same id creates two
independent entries that both execute on a subsequent `run(id)`. -/
theorem c7_add_registrar (m : HookManager) (id : String) (p : Int)
    (isA : Bool) (f : Nat) (args : List Nat) :
    (m.addApply id p isA f).2 = f
    ∧ (m.addApply id p isA f).1.index = m.index + 1
    ∧ (isA = false →
        List.Perm ((m.addApply id p isA f).1.hooks id)
            ({ priority := p, seq := m.index, func := f } :: m.hooks id)
          ∧ (m.addApply id p isA f).1.async_hooks = m.async_hooks)
    ∧ (isA = true →
        List.Perm ((m.addApply id p isA f).1.async_hooks id)
            ({ priority := p, seq := m.index, func := f } :: m.async_hooks id)
          ∧ (m.addApply id p isA f).1.hooks = m.hooks)
    ∧ (isA = false →
        ((((m.addHook id p isA f).addHook id p isA f).run id args).calls.countP
            (fun c => c.func == f && !c.is_async))
          = (m.hooks id).countP (fun e => e.func == f) + 2)
    ∧ (isA = true →
        ((((m.addHook id p isA f).addHook id p isA f).run id args).calls.countP
            (fun c => c.func == f && c.is_async))
          = (m.async_hooks id).countP (fun e => e.func == f) + 2) := by
  refine ⟨HookManager.addApply_snd m id p isA f, ?_, ?_, ?_, ?_, ?_⟩
  · unfold HookManager.addApply; split <;> rfl
  · intro h; subst h
    constructor
    · have hx : (m.addApply id p false f).1.hooks id
          = heappush (m.hooks id) ⟨p, m.index, f⟩ := by
        simp [HookManager.addApply]
      rw [hx]
      exact heappush_perm _ _
    · simp [HookManager.addApply]
  · intro h; subst h
    constructor
    · have hx : (m.addApply id p true f).1.async_hooks id
          = heappush (m.async_hooks id) ⟨p, m.index, f⟩ := by
        simp [HookManager.addApply]
      rw [hx]
      exact heappush_perm _ _
    · simp [HookManager.addApply]
  · intro h; subst h
    have h1 : (m.addHook id p false f).hooks id
        = heappush (m.hooks id) ⟨p, m.index, f⟩ := by
      simp [HookManager.addHook, HookManager.addApply]
    have h2 : ((m.addHook id p false f).addHook id p false f).hooks id
        = heappush ((m.addHook id p false f).hooks id)
            ⟨p, (m.addHook id p false f).index, f⟩ := by
      simp [HookManager.addHook, HookManager.addApply]
    have hperm : List.Perm
        (((m.addHook id p false f).addHook id p false f).hooks id)
        (({ priority := p, seq := (m.addHook id p false f).index, func := f }
            : HookEntry)
          :: ({ priority := p, seq := m.index, func := f } : HookEntry)
          :: m.hooks id) := by
      rw [h2, h1]
      exact (heappush_perm _ _).trans ((heappush_perm _ _).cons _)
    rw [run_countP_sync, hperm.countP_eq, List.countP_cons, List.countP_cons]
    simp
  · intro h; subst h
    have h1 : (m.addHook id p true f).async_hooks id
        = heappush (m.async_hooks id) ⟨p, m.index, f⟩ := by
      simp [HookManager.addHook, HookManager.addApply]
    have h2 : ((m.addHook id p true f).addHook id p true f).async_hooks id
        = heappush ((m.addHook id p true f).async_hooks id)
            ⟨p, (m.addHook id p true f).index, f⟩ := by
      simp [HookManager.addHook, HookManager.addApply]
    have hperm : List.Perm
        (((m.addHook id p true f).addHook id p true f).async_hooks id)
        (({ priority := p, seq := (m.addHook id p true f).index, func := f }
            : HookEntry)
          :: ({ priority := p, seq := m.index, func := f } : HookEntry)
          :: m.async_hooks id) := by
      rw [h2, h1]
      exact (heappush_perm _ _).trans ((heappush_perm _ _).cons _)
    rw [run_countP_async, hperm.countP_eq, List.countP_cons, List.countP_cons]
    simp

/-- Claim C7, witness: registering callable 7 twice at priority 5 under `"x"`
on the fresh manager yields two synchronous invocations of 7. -/
theorem c7_add_registrar_witness :
    ((((HookManager.init.addHook "x" 5 false 7).addHook "x" 5 false 7).run
        "x" []).calls.countP (fun c => c.func == 7 && !c.is_async))
      = (HookManager.init.hooks "x").countP (fun e => e.func == 7) + 2 :=
  (c7_add_registrar HookManager.init "x" 5 false 7 []).2.2.2.2.1 rfl

/-- Claim C8: `import_hooks` loads exactly the walked files whose name ends
with the configured suffix immediately before the `.py` extension — every
loaded unit stems from such a file via the dotted relative-path derivation,
and (when no load fails) every such file's derived identifier ends up
imported. -/
theorem c8_discovery_matches (env : String → ImportResult) (sfx : String)
    (walk : List (List String × String)) (m : HookManager) :
    (∀ n ∈ (m.import_hooks env walk sfx).loaded,
        ∃ df, df ∈ walk ∧ pyEndsWith df.2 (sfx ++ ".py") = true
          ∧ n = modName df.1 df.2)
    ∧ ((m.import_hooks env walk sfx).error = none →
        ∀ df ∈ walk, pyEndsWith df.2 (sfx ++ ".py") = true →
          modName df.1 df.2
            ∈ (m.import_hooks env walk sfx).manager.imported_hooks) := by
  constructor
  · intro n hn
    rcases scan_loaded_src env sfx walk
        { manager := m, loaded := [], error := none } n hn with h | h
    · exact absurd h (List.not_mem_nil n)
    · exact h
  · intro herr df hdf hm
    exact scan_matching_imported env sfx walk _ herr df hdf hm

/-- Claim C8, witness: the single matching file of the one-file walk is
imported under its derived module name. -/
theorem c8_discovery_matches_witness :
    modName [] "a_hooks.py"
      ∈ (HookManager.init.import_hooks envC9 walkOne
          "_hooks").manager.imported_hooks :=
  (c8_discovery_matches envC9 "_hooks" walkOne HookManager.init).2 (by decide)
    ([], "a_hooks.py") (by decide) (by decide)

/-- Claim C6: discovery is idempotent — after a clean scan, running
`import_hooks` again with the same walk and suffix loads nothing new and
leaves the manager (hence the registry's entry count) unchanged. -/
theorem c6_discovery_idempotent (env : String → ImportResult) (sfx : String)
    (walk : List (List String × String)) (m : HookManager)
    (h : (m.import_hooks env walk sfx).error = none) :
    ((m.import_hooks env walk sfx).manager.import_hooks env walk sfx).manager
        = (m.import_hooks env walk sfx).manager
    ∧ ((m.import_hooks env walk sfx).manager.import_hooks env walk
        sfx).loaded = [] := by
  have hall : ∀ df ∈ walk, pyEndsWith df.2 (sfx ++ ".py") = true →
      modName df.1 df.2
        ∈ (m.import_hooks env walk sfx).manager.imported_hooks :=
    fun df hdf hm => scan_matching_imported env sfx walk _ h df hdf hm
  have hnoop := scan_noop env sfx walk
    { manager := (m.import_hooks env walk sfx).manager, loaded := [],
      error := none } rfl hall
  constructor
  · show (List.foldl (processFile env sfx)
        { manager := (m.import_hooks env walk sfx).manager, loaded := [],
          error := none } walk).manager
      = (m.import_hooks env walk sfx).manager
    rw [hnoop]
  · show (List.foldl (processFile env sfx)
        { manager := (m.import_hooks env walk sfx).manager, loaded := [],
          error := none } walk).loaded = []
    rw [hnoop]

/-- Claim C6, witness: re-scanning the one-file walk after a clean first scan
is a no-op. -/
theorem c6_discovery_idempotent_witness :
    ((HookManager.init.import_hooks envC9 walkOne "_hooks").manager.import_hooks
        envC9 walkOne "_hooks").manager
      = (HookManager.init.import_hooks envC9 walkOne "_hooks").manager
    ∧ ((HookManager.init.import_hooks envC9 walkOne "_hooks").manager.import_hooks
        envC9 walkOne "_hooks").loaded = [] :=
  c6_discovery_idempotent envC9 "_hooks" walkOne HookManager.init (by decide)

/-- Claim C9: a failing unit load propagates out of `import_hooks` and aborts
the rest of the scan, while the units loaded earlier in the scan stay loaded
and their registrations stay in the registry — the result is exactly the
pre-failure state with the error recorded. -/
theorem c9_load_failure_aborts (env : String → ImportResult) (sfx : String)
    (m : HookManager) (pre post : List (List String × String))
    (dirs : List String) (file : String) (e : String)
    (hmatch : pyEndsWith file (sfx ++ ".py") = true)
    (hpre : (m.import_hooks env pre sfx).error = none)
    (hnew : modName dirs file
      ∉ (m.import_hooks env pre sfx).manager.imported_hooks)
    (herr : env (modName dirs file) = ImportResult.err e) :
    m.import_hooks env (pre ++ (dirs, file) :: post) sfx
      = { manager := (m.import_hooks env pre sfx).manager
          loaded := (m.import_hooks env pre sfx).loaded
          error := some e } := by
  show (pre ++ (dirs, file) :: post).foldl (processFile env sfx)
      { manager := m, loaded := [], error := none } = _
  rw [List.foldl_append, List.foldl_cons]
  rw [show List.foldl (processFile env sfx)
      { manager := m, loaded := [], error := none } pre
      = m.import_hooks env pre sfx from rfl]
  have hstep : processFile env sfx (m.import_hooks env pre sfx) (dirs, file)
      = { manager := (m.import_hooks env pre sfx).manager
          loaded := (m.import_hooks env pre sfx).loaded
          error := some e } := by
    unfold processFile
    rw [if_neg (by rw [hpre]; simp), if_pos hmatch, if_neg hnew, herr]
  rw [hstep]
  exact scan_err_frozen env sfx post _ rfl

/-- Claim C9, witness: in the three-file walk whose second file fails, the
first file's unit stays loaded, the third is never reached, and the error
propagates. -/
theorem c9_load_failure_aborts_witness :
    HookManager.init.import_hooks envC9 walkBad "_hooks"
      = { manager := (HookManager.init.import_hooks envC9
            [([], "a_hooks.py")] "_hooks").manager
          loaded := (HookManager.init.import_hooks envC9
            [([], "a_hooks.py")] "_hooks").loaded
          error := some "boom" } :=
  c9_load_failure_aborts envC9 "_hooks" HookManager.init
    [([], "a_hooks.py")] [([], "c_hooks.py")] [] "bad_hooks.py" "boom"
    (by decide) (by decide) (by decide) (by decide)

/-- Claim C10: the loaded-units set contains exactly the pre-existing names
plus the units of this scan whose dynamic import succeeded; a failing
unit is not added, leaving it to be attempted by a later scan. -/
theorem c10_imported_only_on_success (env : String → ImportResult)
    (sfx : String) (walk : List (List String × String)) (m : HookManager) :
    (m.import_hooks env walk sfx).manager.imported_hooks
        = m.imported_hooks ++ (m.import_hooks env walk sfx).loaded
    ∧ (∀ n ∈ (m.import_hooks env walk sfx).loaded,
        ∃ regs, env n = ImportResult.ok regs)
    ∧ (∀ (n e : String), env n = ImportResult.err e → n ∉ m.imported_hooks →
        n ∉ (m.import_hooks env walk sfx).manager.imported_hooks) := by
  have h1 : (m.import_hooks env walk sfx).manager.imported_hooks
      = m.imported_hooks ++ (m.import_hooks env walk sfx).loaded :=
    scan_loaded_inv env sfx m.imported_hooks walk
      { manager := m, loaded := [], error := none } (by simp)
  have h2 : ∀ n ∈ (m.import_hooks env walk sfx).loaded,
      ∃ regs, env n = ImportResult.ok regs :=
    scan_loaded_ok env sfx walk { manager := m, loaded := [], error := none }
      (by intro n hn; exact absurd hn (List.not_mem_nil n))
  refine ⟨h1, h2, ?_⟩
  intro n e henv hn0 hmem
  rw [h1] at hmem
  rcases List.mem_append.mp hmem with h | h
  · exact hn0 h
  · obtain ⟨regs, hok⟩ := h2 n h
    rw [henv] at hok
    exact ImportResult.noConfusion hok

/-- Claim C10, witness: the unit whose import raises is absent from the
loaded-units set after the scan. -/
theorem c10_imported_only_on_success_witness :
    "bad_hooks" ∉ (HookManager.init.import_hooks envC9 walkBad
        "_hooks").manager.imported_hooks :=
  (c10_imported_only_on_success envC9 "_hooks" walkBad HookManager.init).2.2
    "bad_hooks" "boom" (by decide) (by decide)
